import Mathlib

/-!
Shallow embedding of `src/data_analyzer.py` (DataAnalyzer / AnalysisResult)
of the google-sheets-llm-analyzer repository, and verification of the
frozen claims about it.

Cell values of the input table are heterogeneous (string / number / bool /
empty), mirrored by the `Cell` type.  Python string `strip` is mirrored by
`pyStrip`, Python truthiness by `pyTruthy`, Python `str()` by `pyStr`.
The ordered dictionary produced by `collections.Counter` is mirrored by an
insertion-ordered association list (`countsOf`), and `Counter.most_common(1)`
by `mostCommon1` (first key with maximal count, in insertion order).
-/

/-- A spreadsheet cell value as the Python code can receive it:
a string, an integer, a boolean, or `None`. -/
inductive Cell where
  | str (s : String)
  | int (n : Int)
  | bool (b : Bool)
  | none
deriving Repr, DecidableEq

/-- Python truthiness of a cell value (`if category`, `if row[0]`, ...). -/
def pyTruthy : Cell → Bool
  | .str s => !s.isEmpty
  | .int n => n != 0
  | .bool b => b
  | .none => false

/-- Python `str()` of a cell value. -/
def pyStr : Cell → String
  | .str s => s
  | .int n => toString n
  | .bool b => if b then "True" else "False"
  | .none => "None"

/-- `str.strip()` on the underlying character list: drop whitespace from
both ends. -/
def stripChars (l : List Char) : List Char :=
  ((l.dropWhile Char.isWhitespace).reverse.dropWhile Char.isWhitespace).reverse

/-- Python `str.strip()`. -/
def pyStrip (s : String) : String :=
  String.mk (stripChars s.data)

/-- Lines 66–70 of `data_analyzer.py`: normalize the category cell.
A string is stripped; a truthy non-string is converted with `str()` and
stripped; a falsy non-string becomes the empty string. -/
def normCat (c : Cell) : String :=
  match c with
  | .str s => pyStrip s
  | c => if pyTruthy c then pyStrip (pyStr c) else ""

/-- Lines 61–77 of `data_analyzer.py`: the scan over the data rows
(`for i, row in enumerate(data[1:], start=2)`), producing the list of
collected category labels (in row order) and the list of skipped row
numbers.  A row is skipped when it is shorter than the category column or
when the category cell normalizes to the empty string. -/
def scanRows (col : Nat) (rows : List (List Cell)) (i : Nat) :
    List String × List Nat :=
  match rows with
  | [] => ([], [])
  | row :: rest =>
    let tail := scanRows col rest (i + 1)
    if col ≤ row.length then
      let category := normCat (row.getD (col - 1) Cell.none)
      if category ≠ "" then (category :: tail.1, tail.2)
      else (tail.1, i :: tail.2)
    else (tail.1, i :: tail.2)

/-- Increment-or-insert on an insertion-ordered frequency map; mirrors one
step of `collections.Counter` over the `categories` list. -/
def bump (m : List (String × Nat)) (c : String) : List (String × Nat) :=
  match m with
  | [] => [(c, 1)]
  | (k, v) :: rest => if k = c then (k, v + 1) :: rest else (k, v) :: bump rest c

/-- `collections.Counter(categories)` as an insertion-ordered association
list: keys appear in order of first occurrence, values are occurrence
counts. -/
def countsOf (l : List String) : List (String × Nat) :=
  l.foldl bump []

/-- `Counter.most_common(1)[0]` (lines 93–98): the first key, in insertion
order, whose count is maximal; `("", 0)` for an empty counter. -/
def mostCommon1 (m : List (String × Nat)) : String × Nat :=
  match m with
  | [] => ("", 0)
  | x :: xs => xs.foldl (fun best kv => if best.2 < kv.2 then kv else best) x

/-- The `AnalysisResult` dataclass.  `category_counts` keeps the insertion
order of the underlying `Counter` (Python dicts are ordered). -/
structure AnalysisResult where
  total_requests : Nat
  total_rows : Nat
  category_counts : List (String × Nat)
  most_common_category : String
  most_common_count : Nat
  raw_data : List (List Cell)
deriving Repr, DecidableEq

/-- `AnalysisResult.has_data`: `total_requests > 0`. -/
def hasData (r : AnalysisResult) : Bool :=
  decide (0 < r.total_requests)

/-- `AnalysisResult.categories_sorted`:
`sorted(category_counts.items(), key=lambda x: x[1], reverse=True)` —
a stable sort, descending by count. -/
def categoriesSorted (r : AnalysisResult) : List (String × Nat) :=
  r.category_counts.mergeSort (fun a b => b.2 ≤ a.2)

/-- `DataAnalyzer.analyze` (lines 41–107) with `category_column = col`
(1-indexed).  Tables with at most one row, and tables whose scan collects
no category, yield the zero-valued result. -/
def analyze (col : Nat) (data : List (List Cell)) : AnalysisResult :=
  if data.length ≤ 1 then
    ⟨0, data.length, [], "", 0, data⟩
  else
    let cats := (scanRows col (data.drop 1) 2).1
    if cats.isEmpty then
      ⟨0, data.length, [], "", 0, data⟩
    else
      let m := countsOf cats
      let mc := mostCommon1 m
      ⟨cats.length, data.length, m, mc.1, mc.2, data⟩

/-- The request dictionary built by `get_requests_for_llm`.  `row_number`
is an int in the source; the other four entries hold the (cleaned) cell
values, which the source does NOT force to strings. -/
structure RequestRecord where
  row_number : Nat
  id : Cell
  date : Cell
  category : Cell
  choice : Cell
deriving Repr, DecidableEq

/-- Lines 137–143 of `data_analyzer.py`: the cleaning loop.  A string is
stripped, `None` becomes the empty string, any other value is left as
is. -/
def cleanCell (c : Cell) : Cell :=
  match c with
  | .str s => .str (pyStrip s)
  | .none => .str ""
  | c => c

/-- Lines 128–143: build the request dictionary for one data row.
`id` is `row[0] if len(row) > 0 and row[0] else str(i)`; `date`,
`category`, `choice` are `row[k]` when present, else `""`; then every
entry is cleaned. -/
def buildRecord (i : Nat) (row : List Cell) : RequestRecord :=
  { row_number := i
    id := cleanCell (if 0 < row.length ∧ pyTruthy (row.getD 0 Cell.none)
            then row.getD 0 Cell.none else Cell.str (toString i))
    date := cleanCell (row.getD 1 (Cell.str ""))
    category := cleanCell (row.getD 2 (Cell.str ""))
    choice := cleanCell (row.getD 3 (Cell.str "")) }

/-- The loop of lines 128–147: build a record per data row, keep it only
when its (cleaned) `choice` is truthy. -/
def buildRequests (i : Nat) (rows : List (List Cell)) : List RequestRecord :=
  match rows with
  | [] => []
  | row :: rest =>
    let r := buildRecord i row
    if pyTruthy r.choice then r :: buildRequests (i + 1) rest
    else buildRequests (i + 1) rest

/-- `DataAnalyzer.get_requests_for_llm` (lines 109–157). -/
def getRequestsForLlm (data : List (List Cell)) : List RequestRecord :=
  if data.length ≤ 1 then []
  else buildRequests 2 (data.drop 1)

/-- Index of the first occurrence of `x` (the length of the list when `x`
is absent); used to state the row-scan tie-break. -/
def firstIdx (x : String) : List String → Nat
  | [] => 0
  | a :: t => if a = x then 0 else firstIdx x t + 1

/-! ### Helper lemmas about `pyStrip` -/

lemma head?_dropWhile (p : α → Bool) (l : List α) (b : α)
    (h : (l.dropWhile p).head? = some b) : p b = false := by
  have := List.head?_dropWhile_not p l
  rw [h] at this
  exact this

lemma dropWhile_self (p : α → Bool) (l : List α) :
    (l.dropWhile p).dropWhile p = l.dropWhile p := by
  cases h : l.dropWhile p with
  | nil => simp
  | cons a t =>
    have hw : p a = false := head?_dropWhile p l a (by rw [h]; rfl)
    simp [hw]

lemma stripChars_head?_not (l : List Char) (b : Char)
    (hb : (stripChars l).head? = some b) : Char.isWhitespace b = false := by
  have hsplit :
      (l.dropWhile Char.isWhitespace).reverse.takeWhile Char.isWhitespace ++
        (l.dropWhile Char.isWhitespace).reverse.dropWhile Char.isWhitespace =
      (l.dropWhile Char.isWhitespace).reverse :=
    List.takeWhile_append_dropWhile _ _
  have hArev : l.dropWhile Char.isWhitespace =
      stripChars l ++
        ((l.dropWhile Char.isWhitespace).reverse.takeWhile Char.isWhitespace).reverse := by
    have h2 := congrArg List.reverse hsplit
    simp only [List.reverse_append, List.reverse_reverse] at h2
    exact h2.symm
  cases hBr : stripChars l with
  | nil => rw [hBr] at hb; exact absurd hb (by simp)
  | cons b0 rest =>
    rw [hBr] at hb
    simp only [List.head?_cons, Option.some.injEq] at hb
    subst hb
    rw [hBr] at hArev
    exact head?_dropWhile Char.isWhitespace l b0 (by rw [hArev]; rfl)

lemma dropWhile_eq_self_of_head? (p : α → Bool) (l : List α)
    (h : ∀ b, l.head? = some b → p b = false) : l.dropWhile p = l := by
  cases l with
  | nil => simp
  | cons a t =>
    have := h a rfl
    simp [this]

lemma stripChars_idem (l : List Char) : stripChars (stripChars l) = stripChars l := by
  have h1 : (stripChars l).dropWhile Char.isWhitespace = stripChars l :=
    dropWhile_eq_self_of_head? _ _ (stripChars_head?_not l)
  have hrev : (stripChars l).reverse =
      (l.dropWhile Char.isWhitespace).reverse.dropWhile Char.isWhitespace :=
    List.reverse_reverse _
  have h2 : (stripChars l).reverse.dropWhile Char.isWhitespace = (stripChars l).reverse := by
    rw [hrev]; exact dropWhile_self _ _
  calc stripChars (stripChars l)
      = (((stripChars l).dropWhile Char.isWhitespace).reverse.dropWhile
          Char.isWhitespace).reverse := rfl
    _ = ((stripChars l).reverse.dropWhile Char.isWhitespace).reverse := by rw [h1]
    _ = (stripChars l).reverse.reverse := by rw [h2]
    _ = stripChars l := List.reverse_reverse _

lemma pyStrip_idem (s : String) : pyStrip (pyStrip s) = pyStrip s := by
  unfold pyStrip
  rw [show (String.mk (stripChars s.data)).data = stripChars s.data from rfl,
    stripChars_idem]

lemma pyStrip_empty : pyStrip "" = "" := rfl

/-! ### Helper lemmas about the row scan and the frequency map -/

lemma scanRows_length (col : Nat) :
    ∀ (rows : List (List Cell)) (i : Nat),
      (scanRows col rows i).1.length + (scanRows col rows i).2.length = rows.length := by
  intro rows
  induction rows with
  | nil => intro i; simp [scanRows]
  | cons row rest ih =>
    intro i
    simp only [scanRows]
    split
    · split <;> (have h5 := ih (i + 1); simp only [List.length_cons]; omega)
    · have := ih (i + 1); simp only [List.length_cons]; omega

lemma sumVals_bump (m : List (String × Nat)) (c : String) :
    ((bump m c).map Prod.snd).sum = (m.map Prod.snd).sum + 1 := by
  induction m with
  | nil => simp [bump]
  | cons kv rest ih =>
    obtain ⟨k, v⟩ := kv
    simp only [bump]
    split
    · simp only [List.map_cons, List.sum_cons]; omega
    · simp only [List.map_cons, List.sum_cons, ih]; omega

lemma sumVals_foldl_bump :
    ∀ (l : List String) (m : List (String × Nat)),
      ((l.foldl bump m).map Prod.snd).sum = (m.map Prod.snd).sum + l.length := by
  intro l
  induction l with
  | nil => intro m; simp
  | cons a t ih =>
    intro m
    simp only [List.foldl_cons, ih (bump m a), sumVals_bump, List.length_cons]
    omega

lemma sumVals_countsOf (l : List String) :
    ((countsOf l).map Prod.snd).sum = l.length := by
  simpa using sumVals_foldl_bump l []

/-! ### The max-scan of `mostCommon1` -/

/-- One step of the max-scan underlying `Counter.most_common(1)`. -/
def maxStep (best kv : String × Nat) : String × Nat :=
  if best.2 < kv.2 then kv else best

lemma mostCommon1_cons (x : String × Nat) (xs : List (String × Nat)) :
    mostCommon1 (x :: xs) = xs.foldl maxStep x := rfl

lemma foldl_maxStep_mem : ∀ (xs : List (String × Nat)) (x : String × Nat),
    xs.foldl maxStep x ∈ x :: xs := by
  intro xs
  induction xs with
  | nil => intro x; simp
  | cons k t ih =>
    intro x
    have h := ih (maxStep x k)
    simp only [List.foldl_cons]
    rcases List.mem_cons.mp h with h1 | h1
    · rw [h1]
      unfold maxStep
      split <;> simp
    · simp [h1]

lemma foldl_maxStep_max : ∀ (xs : List (String × Nat)) (x : String × Nat),
    ∀ p ∈ x :: xs, p.2 ≤ (xs.foldl maxStep x).2 := by
  intro xs
  induction xs with
  | nil =>
    intro x p hp
    simp only [List.mem_singleton] at hp
    simp [hp]
  | cons k t ih =>
    intro x p hp
    simp only [List.foldl_cons]
    have hx : x.2 ≤ (maxStep x k).2 := by unfold maxStep; split <;> omega
    have hk : k.2 ≤ (maxStep x k).2 := by unfold maxStep; split <;> omega
    rcases List.mem_cons.mp hp with h1 | h1
    · rw [h1]
      exact Nat.le_trans hx (ih (maxStep x k) _ (List.mem_cons_self _ _))
    · rcases List.mem_cons.mp h1 with h2 | h2
      · rw [h2]
        exact Nat.le_trans hk (ih (maxStep x k) _ (List.mem_cons_self _ _))
      · exact ih (maxStep x k) p (List.mem_cons_of_mem _ h2)

lemma foldl_maxStep_first : ∀ (xs : List (String × Nat)) (x : String × Nat),
    ∃ l₁ l₂, x :: xs = l₁ ++ (xs.foldl maxStep x) :: l₂ ∧
      ∀ p ∈ l₁, p.2 < (xs.foldl maxStep x).2 := by
  intro xs
  induction xs with
  | nil =>
    intro x
    exact ⟨[], [], rfl, by simp⟩
  | cons k t ih =>
    intro x
    simp only [List.foldl_cons]
    by_cases h : x.2 < k.2
    · have hy : maxStep x k = k := by unfold maxStep; simp [h]
      obtain ⟨l₁, l₂, heq, hlt⟩ := ih (maxStep x k)
      rw [hy] at heq hlt
      refine ⟨x :: l₁, l₂, by rw [hy]; simpa using heq, ?_⟩
      intro p hp
      rcases List.mem_cons.mp hp with h1 | h1
      · have hk : k.2 ≤ (t.foldl maxStep k).2 :=
          foldl_maxStep_max t k k (List.mem_cons_self _ _)
        rw [h1, hy]
        omega
      · rw [hy]; exact hlt p h1
    · have hy : maxStep x k = x := by unfold maxStep; simp [h]
      obtain ⟨l₁, l₂, heq, hlt⟩ := ih (maxStep x k)
      rw [hy] at heq hlt
      cases l₁ with
      | nil =>
        simp only [List.nil_append] at heq
        injection heq with he1 he2
        refine ⟨[], k :: t, ?_, by simp⟩
        rw [hy, ← he1]
        rfl
      | cons q l₁t =>
        have hq : x = q ∧ t = l₁t ++ (t.foldl maxStep x) :: l₂ := by
          have h3 := heq
          simp only [List.cons_append, List.cons.injEq] at h3
          exact h3
        refine ⟨x :: k :: l₁t, l₂, ?_, ?_⟩
        · rw [hy]
          simp only [List.cons_append, List.cons.injEq, true_and]
          exact hq.2
        · intro p hp
          rw [hy]
          have hxlt : x.2 < (t.foldl maxStep x).2 := by
            have h4 := hlt q (List.mem_cons_self _ _)
            rw [← hq.1] at h4
            exact h4
          rcases List.mem_cons.mp hp with h1 | h1
          · rw [h1]; exact hxlt
          · rcases List.mem_cons.mp h1 with h2 | h2
            · rw [h2]; omega
            · exact hlt p (List.mem_cons_of_mem _ h2)

/-! ### Key order of the frequency map -/

/-- The keys of an association list, in order. -/
def keyList (m : List (String × Nat)) : List String :=
  m.map Prod.fst

lemma bump_keys (m : List (String × Nat)) (c : String) :
    keyList (bump m c) =
      if c ∈ keyList m then keyList m else keyList m ++ [c] := by
  induction m with
  | nil => simp [bump, keyList]
  | cons kv rest ih =>
    obtain ⟨k, v⟩ := kv
    by_cases hk : k = c
    · subst hk
      simp [bump, keyList]
    · have hmem : (c ∈ k :: keyList rest) ↔ (c ∈ keyList rest) := by
        simp only [List.mem_cons]
        exact ⟨fun h => h.resolve_left (fun h2 => hk h2.symm), Or.inr⟩
      have hb : bump ((k, v) :: rest) c = (k, v) :: bump rest c := by
        simp [bump, hk]
      rw [show keyList (bump ((k, v) :: rest) c) =
            keyList (bump ((k, v) :: rest) c) from rfl, hb]
      show k :: keyList (bump rest c) =
          if c ∈ k :: keyList rest then k :: keyList rest else k :: keyList rest ++ [c]
      rw [ih]
      by_cases hc : c ∈ keyList rest
      · rw [if_pos hc, if_pos (hmem.mpr hc)]
      · rw [if_neg hc, if_neg (fun h => hc (hmem.mp h))]
        rfl

lemma firstIdx_cons_self (x : String) (t : List String) :
    firstIdx x (x :: t) = 0 := by
  simp [firstIdx]

lemma firstIdx_append_of_mem (x : String) :
    ∀ (pre r : List String), x ∈ pre → firstIdx x (pre ++ r) < pre.length := by
  intro pre
  induction pre with
  | nil => intro r h; simp at h
  | cons a t ih =>
    intro r h
    by_cases ha : a = x
    · rw [List.cons_append]
      simp [firstIdx, ha]
    · have hx : x ∈ t := (List.mem_cons.mp h).resolve_left (fun h1 => ha h1.symm)
      rw [List.cons_append]
      show (if a = x then 0 else firstIdx x (t ++ r) + 1) < (a :: t).length
      rw [if_neg ha]
      have := ih r hx
      simp only [List.length_cons]
      omega

lemma firstIdx_append_of_not_mem (x : String) :
    ∀ (pre r : List String), x ∉ pre →
      firstIdx x (pre ++ r) = pre.length + firstIdx x r := by
  intro pre
  induction pre with
  | nil => intro r _; simp
  | cons a t ih =>
    intro r h
    have ha : a ≠ x := fun he => h (he ▸ List.mem_cons_self _ _)
    have hx : x ∉ t := fun hm => h (List.mem_cons_of_mem _ hm)
    rw [List.cons_append]
    show (if a = x then 0 else firstIdx x (t ++ r) + 1) = (a :: t).length + firstIdx x r
    rw [if_neg ha, ih r hx]
    simp only [List.length_cons]
    omega

lemma countsOf_invariant (L : List String) :
    ∀ (rest pre : List String) (m : List (String × Nat)),
      L = pre ++ rest →
      (∀ x, x ∈ keyList m ↔ x ∈ pre) →
      (keyList m).Pairwise (fun a b => firstIdx a L < firstIdx b L) →
      (∀ x, x ∈ keyList (rest.foldl bump m) ↔ x ∈ pre ++ rest) ∧
        (keyList (rest.foldl bump m)).Pairwise
          (fun a b => firstIdx a L < firstIdx b L) := by
  intro rest
  induction rest with
  | nil =>
    intro pre m hL hmem hpw
    simpa using ⟨hmem, hpw⟩
  | cons y rest ih =>
    intro pre m hL hmem hpw
    have hL2 : L = (pre ++ [y]) ++ rest := by
      rw [hL, List.append_assoc]; rfl
    have hside1 : ∀ x, x ∈ keyList (bump m y) ↔ x ∈ pre ++ [y] := by
      intro x
      rw [bump_keys]
      by_cases hy : y ∈ keyList m
      · rw [if_pos hy]
        have hyPre : y ∈ pre := (hmem y).mp hy
        rw [hmem x]
        simp only [List.mem_append, List.mem_singleton]
        exact ⟨Or.inl, fun h => h.elim id (fun he => he ▸ hyPre)⟩
      · rw [if_neg hy]
        simp only [List.mem_append, List.mem_singleton, hmem x]
    have hside2 : (keyList (bump m y)).Pairwise
        (fun a b => firstIdx a L < firstIdx b L) := by
      rw [bump_keys]
      by_cases hy : y ∈ keyList m
      · rw [if_pos hy]; exact hpw
      · rw [if_neg hy]
        rw [List.pairwise_append]
        refine ⟨hpw, List.pairwise_singleton _ _, ?_⟩
        intro x hx b hb
        rw [List.mem_singleton] at hb
        rw [hb]
        have hxPre : x ∈ pre := (hmem x).mp hx
        have hyPre : y ∉ pre := fun h => hy ((hmem y).mpr h)
        have h1 : firstIdx x L < pre.length := by
          rw [hL]; exact firstIdx_append_of_mem x pre (y :: rest) hxPre
        have h2 : firstIdx y L = pre.length := by
          rw [hL, firstIdx_append_of_not_mem y pre (y :: rest) hyPre,
            firstIdx_cons_self]
          omega
        omega
    have hstep := ih (pre ++ [y]) (bump m y) hL2 hside1 hside2
    refine ⟨?_, by rw [List.foldl_cons]; exact hstep.2⟩
    intro x
    rw [List.foldl_cons, (hstep.1 x)]
    simp [List.mem_append, List.mem_cons, or_assoc]

lemma countsOf_keys (cats : List String) :
    (∀ x, x ∈ keyList (countsOf cats) ↔ x ∈ cats) ∧
      (keyList (countsOf cats)).Pairwise
        (fun a b => firstIdx a cats < firstIdx b cats) := by
  have h := countsOf_invariant cats cats [] [] rfl (by simp [keyList]) (by simp [keyList])
  simpa [countsOf] using h

lemma countsOf_ne_nil (cats : List String) (h : cats ≠ []) : countsOf cats ≠ [] := by
  cases cats with
  | nil => exact absurd rfl h
  | cons c t =>
    intro hcon
    have hc : c ∈ keyList (countsOf (c :: t)) :=
      ((countsOf_keys (c :: t)).1 c).mpr (List.mem_cons_self _ _)
    rw [hcon] at hc
    simp [keyList] at hc

/-! ### Unfolding lemmas for `analyze` -/

lemma analyze_small (col : Nat) (data : List (List Cell)) (h : data.length ≤ 1) :
    analyze col data = ⟨0, data.length, [], "", 0, data⟩ := by
  simp [analyze, h]

lemma analyze_noCats (col : Nat) (data : List (List Cell)) (h2 : ¬ data.length ≤ 1)
    (hc : (scanRows col (data.drop 1) 2).1 = []) :
    analyze col data = ⟨0, data.length, [], "", 0, data⟩ := by
  have hc2 : (scanRows col data.tail 2).1 = [] := by
    rw [← List.drop_one]; exact hc
  simp [analyze, h2, hc2]

lemma analyze_main (col : Nat) (data : List (List Cell)) (h2 : ¬ data.length ≤ 1)
    (hc : (scanRows col (data.drop 1) 2).1 ≠ []) :
    analyze col data = ⟨(scanRows col (data.drop 1) 2).1.length, data.length,
      countsOf (scanRows col (data.drop 1) 2).1,
      (mostCommon1 (countsOf (scanRows col (data.drop 1) 2).1)).1,
      (mostCommon1 (countsOf (scanRows col (data.drop 1) 2).1)).2, data⟩ := by
  have hc2 : (scanRows col data.tail 2).1 ≠ [] := by
    rw [← List.drop_one]; exact hc
  simp [analyze, h2, hc2]

lemma mostCommon1_spec (m : List (String × Nat)) (hm : m ≠ []) :
    mostCommon1 m ∈ m ∧ (∀ p ∈ m, p.2 ≤ (mostCommon1 m).2) ∧
      ∃ l₁ l₂, m = l₁ ++ (mostCommon1 m) :: l₂ ∧ ∀ p ∈ l₁, p.2 < (mostCommon1 m).2 := by
  cases m with
  | nil => exact absurd rfl hm
  | cons x xs =>
    rw [mostCommon1_cons]
    exact ⟨foldl_maxStep_mem xs x, foldl_maxStep_max xs x, foldl_maxStep_first xs x⟩

lemma mostCommon1_tie (cats : List String) (p : String × Nat)
    (hm : countsOf cats ≠ []) (hp : p ∈ countsOf cats)
    (he : p.2 = (mostCommon1 (countsOf cats)).2) :
    firstIdx (mostCommon1 (countsOf cats)).1 cats ≤ firstIdx p.1 cats := by
  obtain ⟨hmem, hmax, l₁, l₂, heq, hlt⟩ := mostCommon1_spec (countsOf cats) hm
  rw [heq] at hp
  rcases List.mem_append.mp hp with h1 | h1
  · exact absurd he (by have := hlt p h1; omega)
  · rcases List.mem_cons.mp h1 with h2 | h2
    · rw [h2]
    · have hpw := (countsOf_keys cats).2
      rw [heq] at hpw
      have hkeq : keyList (l₁ ++ mostCommon1 (countsOf cats) :: l₂) =
          keyList l₁ ++ (mostCommon1 (countsOf cats)).1 :: keyList l₂ := by
        simp [keyList]
      rw [hkeq] at hpw
      have hsub : ((mostCommon1 (countsOf cats)).1 :: keyList l₂).Pairwise
          (fun a b => firstIdx a cats < firstIdx b cats) :=
        List.Pairwise.sublist (List.sublist_append_right _ _) hpw
      have hfor := (List.pairwise_cons.mp hsub).1
      exact Nat.le_of_lt (hfor p.1 (List.mem_map_of_mem Prod.fst h2))

example : analyze 3 [[Cell.str "id", Cell.str "date", Cell.str "cat", Cell.str "choice"],
    [Cell.str "1", Cell.str "2024-01-01", Cell.str "Billing", Cell.str "slow refund"],
    [Cell.str "2", Cell.str "2024-01-02", Cell.str "Billing", Cell.str "double charge"],
    [Cell.str "3", Cell.str "2024-01-03", Cell.str "", Cell.str "no category"]] =
    { total_requests := 2, total_rows := 4,
      category_counts := [("Billing", 2)],
      most_common_category := "Billing", most_common_count := 2,
      raw_data := [[Cell.str "id", Cell.str "date", Cell.str "cat", Cell.str "choice"],
        [Cell.str "1", Cell.str "2024-01-01", Cell.str "Billing", Cell.str "slow refund"],
        [Cell.str "2", Cell.str "2024-01-02", Cell.str "Billing", Cell.str "double charge"],
        [Cell.str "3", Cell.str "2024-01-03", Cell.str "", Cell.str "no category"]] } := by
  decide

/-! ### Claim theorems: the statistical aggregator -/

/-- Concrete table for witnesses: two categories tied at count 2,
"Billing" first in row order (scenario C of the spec). -/
def tableTie : List (List Cell) :=
  [[Cell.str "h"],
   [Cell.str "1", Cell.str "d", Cell.str "Billing", Cell.str "x"],
   [Cell.str "2", Cell.str "d", Cell.str "Support", Cell.str "x"],
   [Cell.str "3", Cell.str "d", Cell.str "Support", Cell.str "x"],
   [Cell.str "4", Cell.str "d", Cell.str "Billing", Cell.str "x"]]

/-- C1: `analyze` returns a `most_common_category`/`most_common_count` pair
such that `most_common_count` is the highest count in `category_counts`,
the pair occurs in `category_counts`, and among categories sharing the
highest count `most_common_category` is the one whose first occurrence in
the row-scan category sequence comes first. -/
theorem analyze_mostCommon_max_and_first_seen (col : Nat) (data : List (List Cell))
    (hcol : 1 ≤ col) (h : (analyze col data).category_counts ≠ []) :
    ((analyze col data).most_common_category, (analyze col data).most_common_count) ∈
        (analyze col data).category_counts ∧
      (∀ p ∈ (analyze col data).category_counts,
        p.2 ≤ (analyze col data).most_common_count) ∧
      (∀ p ∈ (analyze col data).category_counts,
        p.2 = (analyze col data).most_common_count →
          firstIdx (analyze col data).most_common_category
              (scanRows col (data.drop 1) 2).1 ≤
            firstIdx p.1 (scanRows col (data.drop 1) 2).1) := by
  by_cases h2 : data.length ≤ 1
  · rw [analyze_small col data h2] at h
    exact absurd rfl h
  · by_cases hc : (scanRows col (data.drop 1) 2).1 = []
    · rw [analyze_noCats col data h2 hc] at h
      exact absurd rfl h
    · rw [analyze_main col data h2 hc]
      have hm : countsOf (scanRows col (data.drop 1) 2).1 ≠ [] :=
        countsOf_ne_nil _ hc
      obtain ⟨hmem, hmax, _⟩ := mostCommon1_spec _ hm
      refine ⟨hmem, hmax, ?_⟩
      intro p hp he
      exact mostCommon1_tie _ p hm hp he

theorem analyze_mostCommon_max_and_first_seen_witness :
    1 ≤ 3 ∧ (analyze 3 tableTie).category_counts ≠ [] ∧
    (((analyze 3 tableTie).most_common_category,
        (analyze 3 tableTie).most_common_count) ∈
          (analyze 3 tableTie).category_counts ∧
      (∀ p ∈ (analyze 3 tableTie).category_counts,
        p.2 ≤ (analyze 3 tableTie).most_common_count) ∧
      (∀ p ∈ (analyze 3 tableTie).category_counts,
        p.2 = (analyze 3 tableTie).most_common_count →
          firstIdx (analyze 3 tableTie).most_common_category
              (scanRows 3 (tableTie.drop 1) 2).1 ≤
            firstIdx p.1 (scanRows 3 (tableTie.drop 1) 2).1)) :=
  ⟨by decide, by decide,
    analyze_mostCommon_max_and_first_seen 3 tableTie (by decide) (by decide)⟩

/-- C2, counterexample: on the empty (zero-row) table,
`total_requests = 0` and `total_rows = 0`, so the claimed inequality
`total_requests ≤ total_rows - 1` fails (over the integers). -/
theorem analyze_total_bound_fails_on_empty_table :
    ¬ (((analyze 3 ([] : List (List Cell))).total_requests : Int) ≤
        ((analyze 3 ([] : List (List Cell))).total_rows : Int) - 1) := by
  decide

/-- C2, amended: for every table with at least one row,
`total_requests ≤ total_rows - 1`. -/
theorem analyze_total_requests_le_total_rows_sub_one (col : Nat)
    (data : List (List Cell)) (hcol : 1 ≤ col) (h : 1 ≤ data.length) :
    ((analyze col data).total_requests : Int) ≤
      ((analyze col data).total_rows : Int) - 1 := by
  by_cases h2 : data.length ≤ 1
  · rw [analyze_small col data h2]
    dsimp only
    omega
  · by_cases hc : (scanRows col (data.drop 1) 2).1 = []
    · rw [analyze_noCats col data h2 hc]
      dsimp only
      omega
    · rw [analyze_main col data h2 hc]
      have hlen := scanRows_length col (data.drop 1) 2
      have hdrop : (data.drop 1).length = data.length - 1 := by simp
      dsimp only
      omega

theorem analyze_total_requests_le_total_rows_sub_one_witness :
    1 ≤ 3 ∧ 1 ≤ ([[ ]] : List (List Cell)).length ∧
    ((analyze 3 ([[ ]] : List (List Cell))).total_requests : Int) ≤
      ((analyze 3 ([[ ]] : List (List Cell))).total_rows : Int) - 1 :=
  ⟨by decide, by decide,
    analyze_total_requests_le_total_rows_sub_one 3 [[ ]] (by decide) (by decide)⟩

/-- C7: the counts in `category_counts` sum to `total_requests`. -/
theorem analyze_sum_counts_eq_total_requests (col : Nat)
    (data : List (List Cell)) (hcol : 1 ≤ col) :
    (((analyze col data).category_counts).map Prod.snd).sum =
      (analyze col data).total_requests := by
  by_cases h2 : data.length ≤ 1
  · rw [analyze_small col data h2]
    simp
  · by_cases hc : (scanRows col (data.drop 1) 2).1 = []
    · rw [analyze_noCats col data h2 hc]
      simp
    · rw [analyze_main col data h2 hc]
      exact sumVals_countsOf _

theorem analyze_sum_counts_eq_total_requests_witness :
    1 ≤ 3 ∧
    (((analyze 3 tableTie).category_counts).map Prod.snd).sum =
      (analyze 3 tableTie).total_requests :=
  ⟨by decide, analyze_sum_counts_eq_total_requests 3 tableTie (by decide)⟩

/-- C8: a table with at most one row yields the zero-valued result:
no requests, empty counts, empty most-common category with count 0,
`has_data` false, and `total_rows` the number of rows; this is a normal
return, not an error. -/
theorem analyze_small_table_zero_result (col : Nat) (data : List (List Cell))
    (hcol : 1 ≤ col) (h : data.length ≤ 1) :
    (analyze col data).total_requests = 0 ∧
    (analyze col data).category_counts = [] ∧
    (analyze col data).most_common_category = "" ∧
    (analyze col data).most_common_count = 0 ∧
    hasData (analyze col data) = false ∧
    (analyze col data).total_rows = data.length := by
  rw [analyze_small col data h]
  simp [hasData]

theorem analyze_small_table_zero_result_witness :
    1 ≤ 3 ∧ ([] : List (List Cell)).length ≤ 1 ∧
    ((analyze 3 ([] : List (List Cell))).total_requests = 0 ∧
     (analyze 3 ([] : List (List Cell))).category_counts = [] ∧
     (analyze 3 ([] : List (List Cell))).most_common_category = "" ∧
     (analyze 3 ([] : List (List Cell))).most_common_count = 0 ∧
     hasData (analyze 3 ([] : List (List Cell))) = false ∧
     (analyze 3 ([] : List (List Cell))).total_rows =
       ([] : List (List Cell)).length) :=
  ⟨by decide, by decide,
    analyze_small_table_zero_result 3 [] (by decide) (by decide)⟩

/-- C10: on a table with at least two rows, every data row is either
counted or skipped: `total_requests` plus the number of skipped rows
equals `total_rows - 1`. -/
theorem analyze_counted_plus_skipped_eq_data_rows (col : Nat)
    (data : List (List Cell)) (hcol : 1 ≤ col) (h : 2 ≤ data.length) :
    (analyze col data).total_requests + (scanRows col (data.drop 1) 2).2.length =
      (analyze col data).total_rows - 1 := by
  have h2 : ¬ data.length ≤ 1 := by omega
  have hlen := scanRows_length col (data.drop 1) 2
  have hdrop : (data.drop 1).length = data.length - 1 := by simp
  by_cases hc : (scanRows col (data.drop 1) 2).1 = []
  · rw [analyze_noCats col data h2 hc]
    rw [hc] at hlen
    simp only [List.length_nil] at hlen
    dsimp only
    omega
  · rw [analyze_main col data h2 hc]
    dsimp only
    omega

theorem analyze_counted_plus_skipped_eq_data_rows_witness :
    1 ≤ 3 ∧ 2 ≤ tableTie.length ∧
    (analyze 3 tableTie).total_requests +
        (scanRows 3 (tableTie.drop 1) 2).2.length =
      (analyze 3 tableTie).total_rows - 1 :=
  ⟨by decide, by decide,
    analyze_counted_plus_skipped_eq_data_rows 3 tableTie (by decide) (by decide)⟩

/-! ### Claim theorems: `categories_sorted` -/

lemma cntLe_trans : ∀ (a b c : String × Nat),
    (fun a b : String × Nat => decide (b.2 ≤ a.2)) a b = true →
    (fun a b : String × Nat => decide (b.2 ≤ a.2)) b c = true →
    (fun a b : String × Nat => decide (b.2 ≤ a.2)) a c = true := by
  intro a b c hab hbc
  simp only [decide_eq_true_eq] at hab hbc ⊢
  omega

lemma cntLe_total : ∀ (a b : String × Nat),
    ((fun a b : String × Nat => decide (b.2 ≤ a.2)) a b ||
      (fun a b : String × Nat => decide (b.2 ≤ a.2)) b a) = true := by
  intro a b
  simp only [Bool.or_eq_true, decide_eq_true_eq]
  omega

lemma mergeSort_cnt_filter_eq (m : List (String × Nat)) (n : Nat) :
    (m.mergeSort (fun a b => b.2 ≤ a.2)).filter (fun p => p.2 = n) =
      m.filter (fun p => p.2 = n) := by
  have hall : ∀ p ∈ m.filter (fun p => decide (p.2 = n)), p.2 = n := by
    intro p hp
    simpa using (List.mem_filter.mp hp).2
  have hpw : (m.filter (fun p => decide (p.2 = n))).Pairwise
      (fun a b : String × Nat => (fun a b : String × Nat => decide (b.2 ≤ a.2)) a b = true) := by
    apply List.pairwise_of_forall_mem_list
    intro a ha b hb
    simp only [decide_eq_true_eq]
    rw [hall a ha, hall b hb]
  have hsub : (m.filter (fun p => decide (p.2 = n))).Sublist
      (m.mergeSort (fun a b => b.2 ≤ a.2)) :=
    List.sublist_mergeSort cntLe_trans cntLe_total hpw (List.filter_sublist m)
  have hsub2 : (m.filter (fun p => decide (p.2 = n))).Sublist
      ((m.mergeSort (fun a b => b.2 ≤ a.2)).filter (fun p => decide (p.2 = n))) := by
    have h3 := List.Sublist.filter (fun p => decide (p.2 = n)) hsub
    rwa [List.filter_eq_self.mpr (fun a ha => by
      simpa using hall a ha)] at h3
  have hperm : ((m.mergeSort (fun a b => b.2 ≤ a.2)).filter
        (fun p => decide (p.2 = n))).Perm
      (m.filter (fun p => decide (p.2 = n))) :=
    (List.mergeSort_perm m _).filter _
  exact (List.Sublist.eq_of_length hsub2 hperm.length_eq.symm).symm

lemma countsOf_pairwise_firstIdx (cats : List String) :
    (countsOf cats).Pairwise
      (fun p q : String × Nat => firstIdx p.1 cats < firstIdx q.1 cats) := by
  have h : ((countsOf cats).map Prod.fst).Pairwise
      (fun a b => firstIdx a cats < firstIdx b cats) := (countsOf_keys cats).2
  have h2 := List.pairwise_map.mp h
  exact h2

lemma mergeSort_ties_pairwise (m : List (String × Nat)) (cats : List String)
    (hpw : m.Pairwise (fun p q : String × Nat => firstIdx p.1 cats < firstIdx q.1 cats)) :
    (m.mergeSort (fun a b => b.2 ≤ a.2)).Pairwise
      (fun p q : String × Nat => p.2 = q.2 →
        firstIdx p.1 cats ≤ firstIdx q.1 cats) := by
  rw [List.pairwise_iff_forall_sublist]
  intro a b hab heq
  have hfil : [a, b].filter (fun p => decide (p.2 = a.2)) = [a, b] := by
    simp [List.filter, heq]
  have h1 : List.Sublist [a, b]
      ((m.mergeSort (fun a b => b.2 ≤ a.2)).filter (fun p => decide (p.2 = a.2))) := by
    rw [← hfil]
    exact List.Sublist.filter _ hab
  rw [mergeSort_cnt_filter_eq m a.2] at h1
  have h2 : List.Sublist [a, b] m := h1.trans (List.filter_sublist m)
  exact Nat.le_of_lt (List.pairwise_iff_forall_sublist.mp hpw h2)

/-- C5: `categories_sorted` is the sequence of (category, count) pairs of
`category_counts`, sorted descending by count; it is a permutation of the
frequency map, entries with any fixed count keep the map's insertion
order, and for two entries with equal counts the earlier one is the
category first seen in the row scan. -/
theorem categoriesSorted_desc_and_stable (col : Nat) (data : List (List Cell))
    (hcol : 1 ≤ col) :
    (categoriesSorted (analyze col data)).Pairwise
        (fun a b : String × Nat => b.2 ≤ a.2) ∧
      (categoriesSorted (analyze col data)).Perm
        (analyze col data).category_counts ∧
      (∀ n : Nat, (categoriesSorted (analyze col data)).filter (fun p => p.2 = n) =
        ((analyze col data).category_counts).filter (fun p => p.2 = n)) ∧
      (categoriesSorted (analyze col data)).Pairwise
        (fun a b : String × Nat => a.2 = b.2 →
          firstIdx a.1 (scanRows col (data.drop 1) 2).1 ≤
            firstIdx b.1 (scanRows col (data.drop 1) 2).1) := by
  have hsorted : (categoriesSorted (analyze col data)).Pairwise
      (fun a b : String × Nat => b.2 ≤ a.2) := by
    have h := List.sorted_mergeSort cntLe_trans cntLe_total
      ((analyze col data).category_counts)
    exact h.imp (by intro a b hab; simpa using hab)
  have hperm : (categoriesSorted (analyze col data)).Perm
      (analyze col data).category_counts :=
    List.mergeSort_perm _ _
  have hfilter : ∀ n : Nat,
      (categoriesSorted (analyze col data)).filter (fun p => p.2 = n) =
        ((analyze col data).category_counts).filter (fun p => p.2 = n) :=
    fun n => mergeSort_cnt_filter_eq _ n
  refine ⟨hsorted, hperm, hfilter, ?_⟩
  by_cases h2 : data.length ≤ 1
  · unfold categoriesSorted
    rw [analyze_small col data h2]
    simp
  · by_cases hc : (scanRows col (data.drop 1) 2).1 = []
    · unfold categoriesSorted
      rw [analyze_noCats col data h2 hc]
      simp
    · unfold categoriesSorted
      rw [analyze_main col data h2 hc]
      exact mergeSort_ties_pairwise _ _ (countsOf_pairwise_firstIdx _)

/-! ### Claim theorems: `get_requests_for_llm` -/

lemma get_mk_eq {β : Type} (l : List β) (i j : Nat) (hi : i < l.length)
    (hj : j < l.length) (h : i = j) : l.get ⟨i, hi⟩ = l.get ⟨j, hj⟩ := by
  subst h
  rfl

lemma cleanCell_str_strip (c : Cell) (s : String) (h : cleanCell c = Cell.str s) :
    pyStrip s = s := by
  cases c with
  | str t =>
    injection h with h2
    rw [← h2]
    exact pyStrip_idem t
  | int n => simp [cleanCell] at h
  | bool b => simp [cleanCell] at h
  | none =>
    injection h with h2
    rw [← h2]
    rfl

lemma mem_buildRequests (rows : List (List Cell)) :
    ∀ (i : Nat) (r : RequestRecord), r ∈ buildRequests i rows →
      pyTruthy r.choice = true ∧
        ∃ k, ∃ hk : k < rows.length, r.row_number = i + k ∧
          r = buildRecord (i + k) (rows.get ⟨k, hk⟩) := by
  induction rows with
  | nil => intro i r hr; simp [buildRequests] at hr
  | cons row rest ih =>
    intro i r hr
    simp only [buildRequests] at hr
    by_cases hch : pyTruthy (buildRecord i row).choice
    · rw [if_pos hch] at hr
      rcases List.mem_cons.mp hr with h1 | h1
      · subst h1
        refine ⟨hch, 0, by simp, ?_, ?_⟩
        · show (buildRecord i row).row_number = i + 0
          rfl
        · rfl
      · obtain ⟨hch2, k, hk, hrn, hrec⟩ := ih (i + 1) r h1
        refine ⟨hch2, k + 1, by simpa using Nat.succ_lt_succ hk, ?_, ?_⟩
        · rw [hrn]; omega
        · rw [hrec]
          have harith : i + 1 + k = i + (k + 1) := by omega
          rw [harith]
          rfl
    · rw [if_neg hch] at hr
      obtain ⟨hch2, k, hk, hrn, hrec⟩ := ih (i + 1) r hr
      refine ⟨hch2, k + 1, by simpa using Nat.succ_lt_succ hk, ?_, ?_⟩
      · rw [hrn]; omega
      · rw [hrec]
        have harith : i + 1 + k = i + (k + 1) := by omega
        rw [harith]
        rfl

lemma buildRequests_rowNums (rows : List (List Cell)) :
    ∀ i : Nat, (∀ r ∈ buildRequests i rows, i ≤ r.row_number) ∧
      ((buildRequests i rows).map RequestRecord.row_number).Pairwise
        (fun a b => a < b) := by
  induction rows with
  | nil => intro i; simp [buildRequests]
  | cons row rest ih =>
    intro i
    simp only [buildRequests]
    by_cases hch : pyTruthy (buildRecord i row).choice
    · rw [if_pos hch]
      constructor
      · intro r hr
        rcases List.mem_cons.mp hr with h1 | h1
        · rw [h1]
          show i ≤ i
          exact Nat.le_refl i
        · exact Nat.le_trans (Nat.le_succ i) ((ih (i + 1)).1 r h1)
      · rw [List.map_cons, List.pairwise_cons]
        refine ⟨?_, (ih (i + 1)).2⟩
        intro b hb
        obtain ⟨r, hrm, hrb⟩ := List.mem_map.mp hb
        have := (ih (i + 1)).1 r hrm
        show (buildRecord i row).row_number < b
        rw [← hrb]
        have hrow : (buildRecord i row).row_number = i := rfl
        rw [hrow]
        omega
    · rw [if_neg hch]
      refine ⟨?_, (ih (i + 1)).2⟩
      intro r hr
      exact Nat.le_trans (Nat.le_succ i) ((ih (i + 1)).1 r hr)

/-- C6: every record returned by `get_requests_for_llm` has a choice field
that is non-empty after trimming (truthy, and as a string a trim-stable
non-empty one), and the records appear in strictly increasing
`row_number` order, i.e. in source-table row order. -/
theorem getRequests_choice_nonempty_and_ordered (data : List (List Cell)) :
    (∀ r ∈ getRequestsForLlm data,
      pyTruthy r.choice = true ∧ ∀ s, r.choice = Cell.str s → pyStrip s ≠ "") ∧
    ((getRequestsForLlm data).map RequestRecord.row_number).Pairwise
      (fun a b => a < b) := by
  unfold getRequestsForLlm
  split
  · simp
  · constructor
    · intro r hr
      obtain ⟨hch, k, hk, hrn, hrec⟩ := mem_buildRequests _ 2 r hr
      refine ⟨hch, ?_⟩
      intro s hs
      have hstrip : pyStrip s = s := by
        rw [hrec] at hs
        exact cleanCell_str_strip _ s hs
      have hne : s ≠ "" := by
        intro hcon
        rw [hs, hcon] at hch
        exact absurd hch (by decide)
      rw [hstrip]
      exact hne
    · exact (buildRequests_rowNums _ 2).2

/-- C4, counterexample: for the row `[" ", 7, "c", "d"]` the single
returned record has `id = ""` — the id cell `" "` is blank after trimming
but truthy, so the claimed fallback to the row number (`"2"`) does not
happen — and its `date` field is the integer `7`, not a trimmed string. -/
theorem getRequests_fields_cex :
    getRequestsForLlm [[], [Cell.str " ", Cell.int 7, Cell.str "c", Cell.str "d"]] =
      [{ row_number := 2, id := Cell.str "", date := Cell.int 7,
         category := Cell.str "c", choice := Cell.str "d" }] ∧
    Cell.str "" ≠ Cell.str (toString 2) ∧
    Cell.int 7 ≠ Cell.str (pyStrip (pyStr (Cell.int 7))) := by
  decide

/-- C4, amended: every record returned by `get_requests_for_llm` comes
from the data row at its (2-based) `row_number` via `buildRecord` — so
string-valued fields are trimmed, `None` and missing columns become the
empty string, other non-string cells pass through unchanged, and `id`
falls back to the row number as a string exactly when the raw id cell is
missing or falsy — and every string-valued field is trim-stable. -/
theorem getRequests_fields_amended (data : List (List Cell)) (r : RequestRecord)
    (h : r ∈ getRequestsForLlm data) :
    2 ≤ r.row_number ∧ r.row_number ≤ data.length ∧
    (∃ hlt : r.row_number - 1 < data.length,
        r = buildRecord r.row_number (data.get ⟨r.row_number - 1, hlt⟩)) ∧
    (∀ s, r.id = Cell.str s → pyStrip s = s) ∧
    (∀ s, r.date = Cell.str s → pyStrip s = s) ∧
    (∀ s, r.category = Cell.str s → pyStrip s = s) ∧
    (∀ s, r.choice = Cell.str s → pyStrip s = s) := by
  unfold getRequestsForLlm at h
  split at h
  · simp at h
  · rename_i hlen
    obtain ⟨hch, k, hk, hrn, hrec⟩ := mem_buildRequests _ 2 r h
    have hdl : (data.drop 1).length = data.length - 1 := by simp
    have hlen2 : 2 ≤ data.length := by omega
    have hkd : k < data.length - 1 := by omega
    have hk1 : k + 1 < data.length := by omega
    have hge2 : 2 ≤ r.row_number := by omega
    have hle : r.row_number ≤ data.length := by omega
    have hlt : r.row_number - 1 < data.length := by omega
    have hidx : k + 1 = r.row_number - 1 := by omega
    have hget : (data.drop 1).get ⟨k, hk⟩ = data.get ⟨k + 1, hk1⟩ := by
      rw [List.get_eq_getElem, List.get_eq_getElem, List.getElem_drop]
      congr 1
      show 1 + k = k + 1
      omega
    refine ⟨hge2, hle, ⟨hlt, ?_⟩, ?_, ?_, ?_, ?_⟩
    · refine hrec.trans ?_
      rw [hget]
      congr 1
      · exact hrn.symm
      · exact get_mk_eq data (k + 1) (r.row_number - 1) hk1 hlt hidx
    · intro s hs
      rw [hrec] at hs
      exact cleanCell_str_strip _ s hs
    · intro s hs
      rw [hrec] at hs
      exact cleanCell_str_strip _ s hs
    · intro s hs
      rw [hrec] at hs
      exact cleanCell_str_strip _ s hs
    · intro s hs
      rw [hrec] at hs
      exact cleanCell_str_strip _ s hs

/-- Concrete table for the C4 witness. -/
def tableWit : List (List Cell) :=
  [[], [Cell.str " a ", Cell.str "d", Cell.str "c", Cell.str "x"]]

/-- The record produced from `tableWit`, for the C4 witness. -/
def recWit : RequestRecord :=
  { row_number := 2, id := Cell.str "a", date := Cell.str "d",
    category := Cell.str "c", choice := Cell.str "x" }

theorem getRequests_fields_amended_witness :
    recWit ∈ getRequestsForLlm tableWit ∧
    (2 ≤ recWit.row_number ∧ recWit.row_number ≤ tableWit.length ∧
      (∃ hlt : recWit.row_number - 1 < tableWit.length,
          recWit = buildRecord recWit.row_number
            (tableWit.get ⟨recWit.row_number - 1, hlt⟩)) ∧
      (∀ s, recWit.id = Cell.str s → pyStrip s = s) ∧
      (∀ s, recWit.date = Cell.str s → pyStrip s = s) ∧
      (∀ s, recWit.category = Cell.str s → pyStrip s = s) ∧
      (∀ s, recWit.choice = Cell.str s → pyStrip s = s)) :=
  ⟨by decide, getRequests_fields_amended tableWit recWit (by decide)⟩

/-! ### Claim theorems: the category normalization (RowNormalizer) -/

/-- C3, counterexample: the integer cell `0` has the non-empty text
representation `"0"`, yet the normalization maps it to the empty string
(it is falsy), so in `analyze` the row is skipped. -/
theorem normCat_zero_cex :
    normCat (Cell.int 0) = "" ∧ pyStr (Cell.int 0) = "0" ∧
      pyStrip (pyStr (Cell.int 0)) ≠ "" ∧
      (analyze 3 [[Cell.str "h"],
        [Cell.str "1", Cell.str "d", Cell.int 0, Cell.str "x"]]).total_requests = 0 := by
  decide

/-- C3, amended: a truthy cell value is converted to its (trimmed) text
representation and a falsy one (empty string, `None`, `0`, `False`) is
normalized to the empty string; normalization is total, it never fails. -/
theorem normCat_amended (c : Cell) :
    normCat c = if pyTruthy c then pyStrip (pyStr c) else "" := by
  cases c with
  | str s =>
    by_cases h : s = ""
    · subst h
      rfl
    · have hne : (!s.isEmpty) = true := by
        cases hsi : s.isEmpty with
        | true => exact absurd ((String.isEmpty_iff s).mp hsi) h
        | false => rfl
      show pyStrip s = if pyTruthy (Cell.str s) then pyStrip (pyStr (Cell.str s)) else ""
      rw [show pyTruthy (Cell.str s) = !s.isEmpty from rfl, hne]
      rfl
  | int n => rfl
  | bool b => rfl
  | none => rfl

/-! ### Claim theorems: totality (no exception crosses the boundary) -/

/-- The row scan with raw (fallible) list indexing: `row[col - 1]` is an
`IndexError` — `Option.none` — when out of bounds; the source guards it
with `len(row) >= category_column`. -/
def scanRowsE (col : Nat) (rows : List (List Cell)) (i : Nat) :
    Option (List String × List Nat) :=
  match rows with
  | [] => some ([], [])
  | row :: rest => do
    let tail ← scanRowsE col rest (i + 1)
    if col ≤ row.length then do
      let cell ← row.get? (col - 1)
      let category := normCat cell
      if category ≠ "" then pure (category :: tail.1, tail.2)
      else pure (tail.1, i :: tail.2)
    else pure (tail.1, i :: tail.2)

/-- `analyze` with fallible indexing. -/
def analyzeE (col : Nat) (data : List (List Cell)) : Option AnalysisResult :=
  if data.length ≤ 1 then some ⟨0, data.length, [], "", 0, data⟩
  else do
    let scan ← scanRowsE col (data.drop 1) 2
    if scan.1.isEmpty then pure ⟨0, data.length, [], "", 0, data⟩
    else
      pure ⟨scan.1.length, data.length, countsOf scan.1,
        (mostCommon1 (countsOf scan.1)).1, (mostCommon1 (countsOf scan.1)).2, data⟩

/-- One request dictionary with fallible indexing: each `row[k]` access is
guarded by the corresponding `len(row) > k` test, as in the source. -/
def buildRecordE (i : Nat) (row : List Cell) : Option RequestRecord := do
  let idCell ←
    if 0 < row.length then do
      let c ← row.get? 0
      pure (if pyTruthy c then c else Cell.str (toString i))
    else pure (Cell.str (toString i))
  let dateCell ← if 1 < row.length then row.get? 1 else pure (Cell.str "")
  let catCell ← if 2 < row.length then row.get? 2 else pure (Cell.str "")
  let choiceCell ← if 3 < row.length then row.get? 3 else pure (Cell.str "")
  pure ⟨i, cleanCell idCell, cleanCell dateCell, cleanCell catCell,
    cleanCell choiceCell⟩

/-- The selection loop with fallible indexing. -/
def buildRequestsE (i : Nat) (rows : List (List Cell)) :
    Option (List RequestRecord) :=
  match rows with
  | [] => some []
  | row :: rest => do
    let r ← buildRecordE i row
    let tail ← buildRequestsE (i + 1) rest
    if pyTruthy r.choice then pure (r :: tail) else pure tail

/-- `get_requests_for_llm` with fallible indexing. -/
def getRequestsForLlmE (data : List (List Cell)) : Option (List RequestRecord) :=
  if data.length ≤ 1 then some []
  else buildRequestsE 2 (data.drop 1)

lemma get?_of_lt (l : List Cell) (n : Nat) (h : n < l.length) :
    l.get? n = some (l.getD n Cell.none) := by
  rw [List.get?_eq_get h, List.getD_eq_getElem?_getD, List.getElem?_eq_getElem h]
  rfl

lemma scanRowsE_eq (col : Nat) (hcol : 1 ≤ col) :
    ∀ (rows : List (List Cell)) (i : Nat),
      scanRowsE col rows i = some (scanRows col rows i) := by
  intro rows
  induction rows with
  | nil => intro i; rfl
  | cons row rest ih =>
    intro i
    rw [show scanRowsE col (row :: rest) i = do
        let tail ← scanRowsE col rest (i + 1)
        if col ≤ row.length then do
          let cell ← row.get? (col - 1)
          let category := normCat cell
          if category ≠ "" then pure (category :: tail.1, tail.2)
          else pure (tail.1, i :: tail.2)
        else pure (tail.1, i :: tail.2) from rfl]
    rw [ih (i + 1)]
    by_cases hg : col ≤ row.length
    · have hb : col - 1 < row.length := by omega
      rw [get?_of_lt row (col - 1) hb]
      simp only [Option.bind_eq_bind, Option.some_bind, if_pos hg]
      by_cases hcat : normCat (row.getD (col - 1) Cell.none) ≠ ""
      · simp only [if_pos hcat]
        rw [show scanRows col (row :: rest) i =
            (normCat (row.getD (col - 1) Cell.none) :: (scanRows col rest (i + 1)).1,
              (scanRows col rest (i + 1)).2) from by
          simp only [scanRows]
          rw [if_pos hg, if_pos hcat]]
        rfl
      · simp only [if_neg hcat]
        rw [show scanRows col (row :: rest) i =
            ((scanRows col rest (i + 1)).1, i :: (scanRows col rest (i + 1)).2) from by
          simp only [scanRows]
          rw [if_pos hg, if_neg hcat]]
        rfl
    · simp only [Option.bind_eq_bind, Option.some_bind, if_neg hg]
      rw [show scanRows col (row :: rest) i =
          ((scanRows col rest (i + 1)).1, i :: (scanRows col rest (i + 1)).2) from by
        simp only [scanRows]
        rw [if_neg hg]]
      rfl

lemma analyzeE_eq (col : Nat) (data : List (List Cell)) (hcol : 1 ≤ col) :
    analyzeE col data = some (analyze col data) := by
  by_cases h2 : data.length ≤ 1
  · rw [analyze_small col data h2]
    simp [analyzeE, h2]
  · rw [show analyzeE col data = do
        let scan ← scanRowsE col (data.drop 1) 2
        if scan.1.isEmpty then pure ⟨0, data.length, [], "", 0, data⟩
        else
          pure ⟨scan.1.length, data.length, countsOf scan.1,
            (mostCommon1 (countsOf scan.1)).1, (mostCommon1 (countsOf scan.1)).2,
            data⟩ from by simp [analyzeE, h2]]
    rw [scanRowsE_eq col hcol (data.drop 1) 2]
    by_cases hc : (scanRows col (data.drop 1) 2).1 = []
    · have hc2 : (scanRows col data.tail 2).1 = [] := by
        rw [← List.drop_one]; exact hc
      rw [analyze_noCats col data h2 hc]
      simp [hc2]
    · have hc2 : (scanRows col data.tail 2).1 ≠ [] := by
        rw [← List.drop_one]; exact hc
      rw [analyze_main col data h2 hc]
      simp [hc2]

lemma buildRecordE_eq (i : Nat) (row : List Cell) :
    buildRecordE i row = some (buildRecord i row) := by
  by_cases h0 : 0 < row.length
  · by_cases h1 : 1 < row.length
    · by_cases h2 : 2 < row.length
      · by_cases h3 : 3 < row.length
        · simp [buildRecordE, buildRecord, h0, h1, h2, h3,
            get?_of_lt row 0 h0, get?_of_lt row 1 h1, get?_of_lt row 2 h2,
            get?_of_lt row 3 h3]
        · have h3a : row.length ≤ 3 := by omega
          simp [buildRecordE, buildRecord, h0, h1, h2, h3,
            get?_of_lt row 0 h0, get?_of_lt row 1 h1, get?_of_lt row 2 h2,
            List.getElem?_eq_none h3a]
      · have h3 : ¬ 3 < row.length := by omega
        have h2a : row.length ≤ 2 := by omega
        have h3a : row.length ≤ 3 := by omega
        simp [buildRecordE, buildRecord, h0, h1, h2, h3,
          get?_of_lt row 0 h0, get?_of_lt row 1 h1,
          List.getElem?_eq_none h2a, List.getElem?_eq_none h3a]
    · have h2 : ¬ 2 < row.length := by omega
      have h3 : ¬ 3 < row.length := by omega
      have h1a : row.length ≤ 1 := by omega
      have h2a : row.length ≤ 2 := by omega
      have h3a : row.length ≤ 3 := by omega
      simp [buildRecordE, buildRecord, h0, h1, h2, h3, get?_of_lt row 0 h0,
        List.getElem?_eq_none h1a, List.getElem?_eq_none h2a,
        List.getElem?_eq_none h3a]
  · have h1 : ¬ 1 < row.length := by omega
    have h2 : ¬ 2 < row.length := by omega
    have h3 : ¬ 3 < row.length := by omega
    have h1a : row.length ≤ 1 := by omega
    have h2a : row.length ≤ 2 := by omega
    have h3a : row.length ≤ 3 := by omega
    simp [buildRecordE, buildRecord, h0, h1, h2, h3,
      List.getElem?_eq_none h1a, List.getElem?_eq_none h2a,
      List.getElem?_eq_none h3a]

lemma buildRequestsE_eq : ∀ (rows : List (List Cell)) (i : Nat),
    buildRequestsE i rows = some (buildRequests i rows) := by
  intro rows
  induction rows with
  | nil => intro i; rfl
  | cons row rest ih =>
    intro i
    rw [show buildRequestsE i (row :: rest) = do
        let r ← buildRecordE i row
        let tail ← buildRequestsE (i + 1) rest
        if pyTruthy r.choice then pure (r :: tail) else pure tail from rfl]
    rw [buildRecordE_eq i row, ih (i + 1)]
    by_cases hch : pyTruthy (buildRecord i row).choice
    · simp only [Option.bind_eq_bind, Option.some_bind, if_pos hch]
      rw [show buildRequests i (row :: rest) =
          buildRecord i row :: buildRequests (i + 1) rest from by
        simp only [buildRequests]
        rw [if_pos hch]]
      rfl
    · simp only [Option.bind_eq_bind, Option.some_bind, if_neg hch]
      rw [show buildRequests i (row :: rest) = buildRequests (i + 1) rest from by
        simp only [buildRequests]
        rw [if_neg hch]]
      rfl

/-- C9: `analyze` and `get_requests_for_llm` are total on tables of any
shape: with raw indexing treated as fallible (`Option.none` standing for
an `IndexError`), both runs succeed on every input — malformed rows are
normalized or skipped, and no exception escapes. -/
theorem analyze_and_getRequests_total (col : Nat) (data : List (List Cell))
    (hcol : 1 ≤ col) :
    analyzeE col data = some (analyze col data) ∧
      getRequestsForLlmE data = some (getRequestsForLlm data) := by
  refine ⟨analyzeE_eq col data hcol, ?_⟩
  unfold getRequestsForLlmE getRequestsForLlm
  by_cases h2 : data.length ≤ 1
  · simp [h2]
  · simp only [h2, if_neg]
    exact buildRequestsE_eq (data.drop 1) 2

/-- Concrete malformed table for the C9 witness: a short row, a row with
non-string cells, and an empty row. -/
def tableMalformed : List (List Cell) :=
  [[Cell.str "h"], [Cell.str "1"], [], [Cell.int 5, Cell.none, Cell.int 0, Cell.bool true],
   [Cell.none, Cell.str "d", Cell.str " c ", Cell.str "ok"]]

theorem analyze_and_getRequests_total_witness :
    1 ≤ 3 ∧
    (analyzeE 3 tableMalformed = some (analyze 3 tableMalformed) ∧
      getRequestsForLlmE tableMalformed = some (getRequestsForLlm tableMalformed)) :=
  ⟨by decide, analyze_and_getRequests_total 3 tableMalformed (by decide)⟩

theorem categoriesSorted_desc_and_stable_witness :
    1 ≤ 3 ∧
    ((categoriesSorted (analyze 3 tableTie)).Pairwise
        (fun a b : String × Nat => b.2 ≤ a.2) ∧
      (categoriesSorted (analyze 3 tableTie)).Perm
        (analyze 3 tableTie).category_counts ∧
      (∀ n : Nat, (categoriesSorted (analyze 3 tableTie)).filter (fun p => p.2 = n) =
        ((analyze 3 tableTie).category_counts).filter (fun p => p.2 = n)) ∧
      (categoriesSorted (analyze 3 tableTie)).Pairwise
        (fun a b : String × Nat => a.2 = b.2 →
          firstIdx a.1 (scanRows 3 (tableTie.drop 1) 2).1 ≤
            firstIdx b.1 (scanRows 3 (tableTie.drop 1) 2).1)) :=
  ⟨by decide, categoriesSorted_desc_and_stable 3 tableTie (by decide)⟩
